import Mathlib

/-!
Verification of the herosms-integration extension (TypeScript sources under
`src/`).  The definitions below are a shallow embedding of the program:

* `apiCall`, `getActiveActivations`, `getPrices` embed the response
  normalization layer of `src/api.ts` from the point where the raw response
  text is in hand (the HTTP transport itself is out of scope).  JavaScript's
  `JSON.parse` is an external runtime service and is passed in as an oracle
  `parseJson : String → Option Json` (`none` models a thrown `SyntaxError`).
* `getStatusText`, `getRemainingTime`, `hasCode`, `cleanCode`,
  `sweepActivations` embed `src/see-activations.tsx`; `Date` parsing is again
  passed in as oracles (`none` models an invalid date, i.e. `NaN`).
* `getRemainingTimeFromLocal` embeds `src/utils.ts`.
* `saveRecentlyUsedCountry` embeds the identical function of
  `src/get-phone-number.tsx` and `src/favorite-services.tsx`.

JavaScript machine integers do not overflow in any code path modelled here
(all arithmetic is on millisecond timestamps far below 2^53), so timestamps
are embedded as `Int`.  All functions are total Lean functions; JS exceptions
are modelled with `Except`.
-/

/-- Embedding of JavaScript `String.prototype.startsWith`: character-list
prefix test. -/
def jsStartsWith (s pat : String) : Bool := pat.toList.isPrefixOf s.toList

/-- Helper for `jsIncludes`: does `pat` occur as a contiguous run at some
position of the list? -/
def substrSearch (pat : List Char) : List Char → Bool
  | [] => pat.isEmpty
  | a :: as => pat.isPrefixOf (a :: as) || substrSearch pat as

/-- Embedding of JavaScript `String.prototype.includes`: contiguous substring
test. -/
def jsIncludes (s pat : String) : Bool := substrSearch pat.toList s.toList

/-- Characters removed by JavaScript `String.prototype.trim` (whitespace and
line terminators). -/
def jsWhitespaceChar (ch : Char) : Bool :=
  ch == ' ' || ch == '\t' || ch == '\n' || ch == '\r' || ch == Char.ofNat 0x0b ||
  ch == Char.ofNat 0x0c || ch == Char.ofNat 0xa0 || ch == Char.ofNat 0xfeff ||
  ch == Char.ofNat 0x2028 || ch == Char.ofNat 0x2029

/-- Drop leading and trailing whitespace characters from a character list. -/
def trimChars (l : List Char) : List Char :=
  ((l.dropWhile jsWhitespaceChar).reverse.dropWhile jsWhitespaceChar).reverse

/-- Embedding of JavaScript `String.prototype.trim`. -/
def jsTrim (s : String) : String := String.mk (trimChars s.toList)

/-- JSON values as produced by `JSON.parse` (objects carried as ordered
key/value lists with the keys unique, matching `JSON.parse` output). -/
inductive Json where
  | null
  | bool (b : Bool)
  | num (q : Rat)
  | str (s : String)
  | arr (elems : List Json)
  | obj (fields : List (String × Json))

/-- Property lookup on a decoded JSON object (JavaScript `parsed.key`). -/
def lookupField (fields : List (String × Json)) (k : String) : Option Json :=
  (fields.find? (fun p => p.1 == k)).map (fun p => p.2)

/-- Does `fields.k` exist and equal the string `v` (JavaScript
`parsed.k === "v"`)? -/
def fieldIsStr (fields : List (String × Json)) (k v : String) : Bool :=
  match lookupField fields k with
  | some (.str s) => s == v
  | _ => false

/-- JavaScript truthiness of a decoded JSON value. -/
def jsTruthy (j : Json) : Bool :=
  match j with
  | .null => false
  | .bool b => b
  | .num q => q != 0
  | .str s => s != ""
  | .arr _ => true
  | .obj _ => true

/-- Truthiness of a possibly-absent property (`undefined` is falsy). -/
def jsTruthyOpt (v : Option Json) : Bool :=
  match v with
  | some j => jsTruthy j
  | none => false

/-- JavaScript `typeof` for a decoded JSON value (`typeof null` is
`"object"`). -/
def jsTypeof (j : Json) : String :=
  match j with
  | .null => "object"
  | .bool _ => "boolean"
  | .num _ => "number"
  | .str _ => "string"
  | .arr _ => "object"
  | .obj _ => "object"

/-- Embedding of the check `parsed && typeof parsed === "object" &&
parsed.status === "error"` of src/api.ts line 51 (property access on an array
or primitive never yields the string `"error"`). -/
def statusIsError (j : Json) : Bool :=
  match j with
  | .obj fields => fieldIsStr fields "status" "error"
  | _ => false

/-- Result of `apiCall`: either the value produced by `JSON.parse`, or the
raw response text when structured decoding was not used. -/
inductive ApiResult where
  | json (j : Json)
  | str (s : String)

/-- Message thrown for `NO_KEY`/`BAD_KEY` responses (src/api.ts line 40). -/
def invalidKeyMsg : String :=
  "Invalid API key. Please check your API key in Raycast preferences."

/-- Message thrown for `ERROR_SQL` responses (src/api.ts line 43). -/
def serverErrorMsg : String := "Server error. Please try again later."

/-- Embedding of `apiCall` (src/api.ts lines 36-62), from the point where the
response text is available.  Note that the `throw` for
`parsed.status === "error"` (line 52) sits inside the same `try` block as
`JSON.parse`, so it is swallowed by the `catch (parseError)` handler at line
56 and the function then falls through to the sentinel-prefix check on the
raw text, returning the raw text when no sentinel prefix matches. -/
def apiCall (parseJson : String → Option Json) (text : String) :
    Except String ApiResult :=
  if jsStartsWith text "NO_KEY" || jsStartsWith text "BAD_KEY" then
    .error invalidKeyMsg
  else if jsStartsWith text "ERROR_SQL" then
    .error serverErrorMsg
  else
    match parseJson text with
    | some parsed =>
      if statusIsError parsed then
        if jsStartsWith text "BAD_" || jsStartsWith text "NO_" ||
            jsStartsWith text "ERROR_" then
          .error text
        else
          .ok (.str text)
      else
        .ok (.json parsed)
    | none =>
      if jsStartsWith text "BAD_" || jsStartsWith text "NO_" ||
          jsStartsWith text "ERROR_" then
        .error text
      else
        .ok (.str text)

/-- Key of an object all of whose characters are decimal digits
(the regex `/^\d+$/` of src/api.ts line 296). -/
def digitKey (k : String) : Bool := k != "" && k.toList.all Char.isDigit

/-- Error message of src/api.ts line 303. -/
def unexpectedActivationsMsg (t : String) : String :=
  "Failed to fetch active activations: unexpected response format. Type: " ++ t

/-- String coercion applied by `new Error(x)` to a non-string truthy `x`
(reached only from dead code: `apiCall` never returns a decoded object whose
`status` is `"error"`). -/
def jsCoerceString : Json → String
  | .null => "null"
  | .bool b => if b then "true" else "false"
  | .num q => toString q
  | .str s => s
  | .arr _ => ""
  | .obj _ => "[object Object]"

/-- Embedding of src/api.ts lines 280-305: the part of `getActiveActivations`
handling an object result after the `status === "success"` branch did not
return.  (`Array.isArray(result)` at line 289 is always false here since
`fields` came from an object.) -/
def getActiveActivationsObjFallback (fields : List (String × Json)) :
    Except String (List Json) :=
  if fieldIsStr fields "status" "error" then
    if fieldIsStr fields "error" "NO_ACTIVATIONS" then
      .ok []
    else
      match lookupField fields "error" with
      | some v =>
        if jsTruthy v then .error (jsCoerceString v)
        else .error "API returned an error"
      | none => .error "API returned an error"
  else
    (let keys := fields.map Prod.fst
     if keys.length != 0 && keys.all digitKey then
       .ok (fields.map Prod.snd)
     else
       .error (unexpectedActivationsMsg "object"))

/-- Embedding of src/api.ts lines 250-305 for an object-shaped result:
the `status === "success"` / `activeActivations` branch, falling back to
`getActiveActivationsObjFallback`.  The per-row normalization lambda of lines
256-271 is passed in as `mapRow` (no claim concerns its field arithmetic). -/
def getActiveActivationsObj (mapRow : Json → Json)
    (fields : List (String × Json)) : Except String (List Json) :=
  if fieldIsStr fields "status" "success" &&
      jsTruthyOpt (lookupField fields "activeActivations") then
    match lookupField fields "activeActivations" with
    | some (.obj aaFields) =>
      (match lookupField aaFields "rows" with
       | some (.arr rows) => .ok (rows.map mapRow)
       | _ => getActiveActivationsObjFallback fields)
    | some (.arr elems) => .ok elems
    | _ => getActiveActivationsObjFallback fields
  else
    getActiveActivationsObjFallback fields

/-- Embedding of src/api.ts lines 240-245: the branch of
`getActiveActivations` taken when the `apiCall` result is a string at
runtime. -/
def getActiveActivationsStr (result : String) : Except String (List Json) :=
  if result == "NO_ACTIVATIONS" || jsIncludes result "NO_ACTIVATIONS" then
    .ok []
  else
    .error result

/-- Embedding of `getActiveActivations` (src/api.ts lines 237-306).  A
`.json (.str s)` result of `apiCall` is a string at runtime and therefore
takes the `typeof result === "string"` branch exactly like a raw-text
result. -/
def getActiveActivations (parseJson : String → Option Json)
    (mapRow : Json → Json) (text : String) : Except String (List Json) :=
  match apiCall parseJson text with
  | .error e => .error e
  | .ok (.str result) => getActiveActivationsStr result
  | .ok (.json (.str result)) => getActiveActivationsStr result
  | .ok (.json (.obj fields)) => getActiveActivationsObj mapRow fields
  | .ok (.json (.arr elems)) => .ok elems
  | .ok (.json v) => .error (unexpectedActivationsMsg (jsTypeof v))

/-- One step of JavaScript `Object.assign`: copy a single key/value pair onto
the accumulator, overwriting in place when the key already exists. -/
def assignPair (acc : List (String × Json)) (kv : String × Json) :
    List (String × Json) :=
  if acc.any (fun p => p.1 == kv.1) then
    acc.map (fun p => if p.1 == kv.1 then (p.1, kv.2) else p)
  else
    acc ++ [kv]

/-- JavaScript `Object.assign(acc, item)` for a decoded JSON source value:
objects contribute their key/value pairs in order, strings contribute their
indexed characters, all other primitives contribute nothing. -/
def objectAssign (acc : List (String × Json)) (item : Json) :
    List (String × Json) :=
  match item with
  | .obj kvs => kvs.foldl assignPair acc
  | .str s =>
    (s.toList.enum.map
      (fun p => (toString p.1, Json.str (String.mk [p.2])))).foldl assignPair acc
  | _ => acc

/-- Embedding of `getPrices` (src/api.ts lines 166-200) from the decoded
result onward: an array result is merged with `Object.assign({}, ...result)`,
an object result is returned as is. -/
def getPrices (parseJson : String → Option Json) (text : String) :
    Except String Json :=
  match apiCall parseJson text with
  | .error e => .error e
  | .ok (.str s) => .error s
  | .ok (.json (.str s)) => .error s
  | .ok (.json (.arr items)) =>
    if items.isEmpty then .ok (.obj [])
    else .ok (.obj (items.foldl objectAssign []))
  | .ok (.json (.obj fields)) => .ok (.obj fields)
  | .ok (.json _) => .error "Failed to fetch prices: unexpected response format"

/-- Embedding of `getStatusText` (src/see-activations.tsx lines 656-684). -/
def getStatusText (activationStatus : String) (hasUsableCode : Bool) : String :=
  if hasUsableCode then "Code Received"
  else if activationStatus = "1" then "Waiting for SMS"
  else if activationStatus = "3" then "Retrying"
  else if activationStatus = "4" then "Waiting for SMS"
  else if activationStatus = "6" then
    (if hasUsableCode then "Code Received" else "Completed")
  else if activationStatus = "8" then "Canceled"
  else "Status: " ++ activationStatus

/-- Result record of the remaining-time computations. -/
structure RemainingTime where
  minutes : Int
  seconds : Int
  expired : Bool
deriving Repr, DecidableEq

/-- The value `remaining` computed at src/utils.ts lines 18-20:
20 minutes minus the elapsed time. -/
def localRemainingMs (localCreatedAt now : Int) : Int :=
  20 * 60 * 1000 - (now - localCreatedAt)

/-- Embedding of `getRemainingTimeFromLocal` (src/utils.ts lines 2-52).
`Date.now()` is passed as `now`; the JavaScript falsy test
`!localCreatedAt` is true for `null` and for `0`. -/
def getRemainingTimeFromLocal (localCreatedAt : Option Int) (now : Int) :
    RemainingTime :=
  match localCreatedAt with
  | none => ⟨0, 0, true⟩
  | some t =>
    if t = 0 then ⟨0, 0, true⟩
    else
      let remaining := localRemainingMs t now
      if remaining ≤ 0 then ⟨0, 0, true⟩
      else
        let totalSeconds := remaining / 1000
        let minutes := totalSeconds / 60
        let seconds := totalSeconds % 60
        if minutes > 20 then ⟨20, 0, false⟩
        else ⟨minutes, seconds, false⟩

/-- The regex `/^\d{4}-\d{2}-\d{2} \d{2}:\d{2}:\d{2}$/` of
src/see-activations.tsx line 286. -/
def matchesTsFormat (s : String) : Bool :=
  match s.toList with
  | [y1, y2, y3, y4, da1, mo1, mo2, da2, dd1, dd2, sp,
     hh1, hh2, co1, mi1, mi2, co2, ss1, ss2] =>
    y1.isDigit && y2.isDigit && y3.isDigit && y4.isDigit && da1 == '-' &&
    mo1.isDigit && mo2.isDigit && da2 == '-' && dd1.isDigit && dd2.isDigit &&
    sp == ' ' && hh1.isDigit && hh2.isDigit && co1 == ':' && mi1.isDigit &&
    mi2.isDigit && co2 == ':' && ss1.isDigit && ss2.isDigit
  | _ => false

/-- Embedding of src/see-activations.tsx lines 283-309: choose the activation
instant.  The three `new Date(...)` constructions are passed as oracles
returning the epoch milliseconds, `none` standing for an invalid date (`NaN`):
`parseGen` is `new Date(activationTime)`, `parseLoc` is
`new Date(activationTime.replace(" ", "T"))` (local interpretation) and
`parseUtc` is `new Date(datePart + "T" + timePart + "Z")` (UTC
interpretation).  When the local parse is `NaN` both band comparisons on
`NaN` are false in JavaScript, so the UTC re-parse is skipped and the `NaN`
date flows to the validity check, which is `none` here. -/
def resolveActivationDate (parseGen parseLoc parseUtc : String → Option Int)
    (now : Int) (activationTime : String) : Option Int :=
  if jsIncludes activationTime "T" then parseGen activationTime
  else if matchesTsFormat activationTime then
    match parseLoc activationTime with
    | none => none
    | some tLoc =>
      if now - tLoc < -300000 ∨ now - tLoc > 25 * 60 * 1000 then
        match parseUtc activationTime with
        | none => some tLoc
        | some tUtc =>
          if -60000 ≤ now - tUtc ∧ now - tUtc ≤ 25 * 60 * 1000 then some tUtc
          else some tLoc
      else some tLoc
  else parseGen activationTime

/-- Embedding of `getRemainingTime` (src/see-activations.tsx lines 273-372).
The function is total: every branch, including unparsable input, produces a
`RemainingTime` record instead of propagating a failure (the surrounding
`try`/`catch` of the source can never fire in this pure fragment). -/
def getRemainingTime (parseGen parseLoc parseUtc : String → Option Int)
    (now : Int) (activationTime : String) : RemainingTime :=
  if jsTrim activationTime = "" then ⟨0, 0, true⟩
  else
    match resolveActivationDate parseGen parseLoc parseUtc now activationTime with
    | none => ⟨0, 0, true⟩
    | some d =>
      let timeElapsed := now - d
      if timeElapsed < -60000 then ⟨0, 0, true⟩
      else
        let remaining := 20 * 60 * 1000 - timeElapsed
        if remaining ≤ -5000 then ⟨0, 0, true⟩
        else if remaining < 0 then ⟨0, 0, false⟩
        else
          let totalSeconds := remaining / 1000
          let minutes := totalSeconds / 60
          let seconds := totalSeconds % 60
          let cappedMinutes := if minutes > 20 then 20 else minutes
          if cappedMinutes < 0 ∨ seconds < 0 then ⟨0, 0, false⟩
          else ⟨cappedMinutes, seconds, false⟩

/-- Characters matched by `.` in a JavaScript regex (anything but a line
terminator). -/
def regexDotChar (ch : Char) : Bool :=
  ch != '\n' && ch != '\r' && ch != Char.ofNat 0x2028 && ch != Char.ofNat 0x2029

/-- The regex `/^\[.*\]$/` of src/see-activations.tsx line 416: an opening
bracket, any run of non-line-terminator characters, a closing bracket. -/
def bracketOnlyRegex (c : String) : Bool :=
  match c.toList with
  | [] => false
  | a :: rest =>
    a == '[' && rest.getLast? == some ']' && rest.dropLast.all regexDotChar

/-- Embedding of the `hasCode` computation (src/see-activations.tsx lines
408-417); `none` stands for a `null`/`undefined` code field.  The
`typeof code === "string"` conjunct is identically true for a string input
and is omitted. -/
def hasCode (code : Option String) : Bool :=
  match code with
  | none => false
  | some c =>
    c != "" && c != "null" && c != "undefined" &&
    (jsTrim c).length != 0 && !bracketOnlyRegex c

/-- Embedding of the code cleanup of `handleCopyCode`
(src/see-activations.tsx line 234): `code.replace(/\[|\]/g, "").trim()`. -/
def cleanCode (c : String) : String :=
  jsTrim (String.mk (c.toList.filter (fun ch => !(ch == '[' || ch == ']'))))

/-- One tracked activation as enhanced by `fetchActivations`
(src/see-activations.tsx lines 83-129): the upstream record plus the optional
trusted local creation instant recovered from `LocalStorage`. -/
structure EnhancedActivation where
  activationId : String
  localCreatedAt : Option Int
  activationTime : String
deriving Repr, DecidableEq

/-- Embedding of `LocalStorage.removeItem` over a store modelled as its list
of keys. -/
def removeItem (store : List String) (key : String) : List String :=
  store.filter (fun k => k != key)

/-- Embedding of the expiration sweep of `fetchActivations`
(src/see-activations.tsx lines 131-145): the `filter` over the enhanced
activations together with its `LocalStorage.removeItem` side effects.  Only a
record with a truthy `localCreatedAt` is examined; the JavaScript falsy test
makes a zero timestamp behave like an absent one. -/
def sweepActivations (now : Int) :
    List EnhancedActivation → List String →
    List EnhancedActivation × List String
  | [], store => ([], store)
  | a :: rest, store =>
    match a.localCreatedAt with
    | some t =>
      if t = 0 then
        (let out := sweepActivations now rest store
         (a :: out.1, out.2))
      else if now - t > 20 * 60 * 1000 then
        sweepActivations now rest
          (removeItem store ("activation_" ++ a.activationId))
      else
        (let out := sweepActivations now rest store
         (a :: out.1, out.2))
    | none =>
      (let out := sweepActivations now rest store
       (a :: out.1, out.2))

/-- One persisted recently-used entry (src/get-phone-number.tsx lines
25-28). -/
structure RecentlyUsedEntry where
  serviceCode : String
  countryIds : List Int
deriving Repr, DecidableEq

/-- Embedding of `saveRecentlyUsedCountry` (src/get-phone-number.tsx lines
49-81, duplicated in src/favorite-services.tsx lines 24-56), acting on the
decoded entry list: find (or append) the entry for the service, remove the
saved id, unshift it to the front, and keep the first ten ids. -/
def saveRecentlyUsedCountry (serviceCode : String) (countryId : Int) :
    List RecentlyUsedEntry → List RecentlyUsedEntry
  | [] => [⟨serviceCode, [countryId]⟩]
  | e :: rest =>
    if e.serviceCode = serviceCode then
      ⟨e.serviceCode,
       (countryId :: e.countryIds.filter (fun id => id != countryId)).take 10⟩
        :: rest
    else
      e :: saveRecentlyUsedCountry serviceCode countryId rest

/-- Embedding of `entries.find((e) => e.serviceCode === serviceCode)`. -/
def findEntry (entries : List RecentlyUsedEntry) (serviceCode : String) :
    Option RecentlyUsedEntry :=
  entries.find? (fun e => e.serviceCode == serviceCode)

/-- Well-formed stored state: every entry's id list is duplicate-free and
holds at most ten ids. -/
def WellFormedEntries (entries : List RecentlyUsedEntry) : Prop :=
  ∀ e ∈ entries, e.countryIds.Nodup ∧ e.countryIds.length ≤ 10

/-- Characters a JSON document may begin with (after which `JSON.parse` could
possibly succeed): whitespace, a bracket or brace, a quote, a sign or digit,
or the first letter of `true`/`false`/`null`.  In particular no JSON document
begins with an upper-case letter. -/
def jsonStartChar (ch : Char) : Bool :=
  ch == Char.ofNat 0x7b || ch == '[' || ch == '"' || ch == '-' || ch.isDigit ||
  ch == 't' || ch == 'f' || ch == 'n' || ch == ' ' || ch == '\t' ||
  ch == '\n' || ch == '\r'

/-- A parse oracle conforms to the JSON grammar if it only ever succeeds on
texts beginning with a character a JSON document can begin with. -/
def JsonParseConforms (parseJson : String → Option Json) : Prop :=
  ∀ s j, parseJson s = some j → (s.toList.head?.any jsonStartChar) = true

/-- Parse oracle modelling `JSON.parse` applied to texts it always rejects
(no JSON document begins with an upper-case letter, so sentinel texts such as
`"NO_ACTIVATIONS"` always throw a `SyntaxError`). -/
def noJsonParse : String → Option Json := fun _ => none

/-- Date oracle for strings `new Date` cannot parse (`NaN`). -/
def noDateParse : String → Option Int := fun _ => none

/-- Trivial row normalizer used to instantiate `mapRow` at concrete inputs. -/
def identityRow : Json → Json := fun j => j

/-- Raw text of a JSON error envelope carrying the `NO_ACTIVATIONS` code. -/
def sampleErrorEnvelopeText : String :=
  "\x7b\"status\":\"error\",\"error\":\"NO_ACTIVATIONS\"\x7d"

/-- Decoded fields of `sampleErrorEnvelopeText`. -/
def sampleErrorEnvelopeFields : List (String × Json) :=
  [("status", .str "error"), ("error", .str "NO_ACTIVATIONS")]

/-- Parse oracle decoding exactly `sampleErrorEnvelopeText`. -/
def sampleErrorEnvelopeParse : String → Option Json := fun s =>
  if s == sampleErrorEnvelopeText then some (.obj sampleErrorEnvelopeFields)
  else none

/-- The outer key/value pairs of the price-table example payload. -/
def samplePricesPairs : List (String × Json) :=
  [("1", .obj [("svcA", .obj [("cost", .num 1)])]),
   ("2", .obj [("svcA", .obj [("cost", .num 2)])])]

/-- Parse oracle decoding the array-shaped price example and the empty
array. -/
def samplePricesParse : String → Option Json := fun s =>
  if s == "prices" then
    some (.arr (samplePricesPairs.map (fun kv => Json.obj [kv])))
  else if s == "empty-prices" then some (.arr [])
  else none

/-- Date oracle standing for the local-time interpretation of the sample
server timestamp. -/
def sampleLocalDateParse : String → Option Int := fun _ => some 700000

/-- Date oracle standing for the UTC interpretation of the sample server
timestamp. -/
def sampleUtcDateParse : String → Option Int := fun _ => some 9820000

/-- Records dropped by the sweep of `fetchActivations`: a truthy (nonzero)
local creation instant whose elapsed time strictly exceeds 20 minutes
(src/see-activations.tsx lines 134-144). -/
def sweepDropped (now : Int) (a : EnhancedActivation) : Bool :=
  match a.localCreatedAt with
  | some t => !(t == 0) && decide (now - t > 20 * 60 * 1000)
  | none => false

lemma isPrefixOf_head_eq (c : Char) (cs l : List Char)
    (h : (c :: cs).isPrefixOf l = true) : ∃ rest, l = c :: rest := by
  cases l with
  | nil => simp [List.isPrefixOf] at h
  | cons b bs =>
    simp [List.isPrefixOf] at h
    exact ⟨bs, by rw [h.1]⟩

lemma jsStartsWith_mono {p q text : String}
    (hpq : p.toList.isPrefixOf q.toList = true)
    (h : jsStartsWith text q = true) : jsStartsWith text p = true := by
  unfold jsStartsWith at h ⊢
  exact List.isPrefixOf_iff_prefix.mpr
    ((List.isPrefixOf_iff_prefix.mp hpq).trans (List.isPrefixOf_iff_prefix.mp h))

lemma parseJson_none_of_lead (parseJson : String → Option Json)
    (hp : JsonParseConforms parseJson) (text : String) (c : Char)
    (rest : List Char) (hhead : text.toList = c :: rest)
    (hc : jsonStartChar c = false) : parseJson text = none := by
  cases h : parseJson text with
  | none => rfl
  | some j =>
    have hlead := hp text j h
    rw [hhead] at hlead
    simp [Option.any] at hlead
    rw [hc] at hlead
    cases hlead

lemma mem_of_mem_trimChars {ch : Char} {l : List Char}
    (h : ch ∈ trimChars l) : ch ∈ l := by
  unfold trimChars at h
  have h1 := List.mem_reverse.mp h
  have h2 := (List.dropWhile_sublist (l := (l.dropWhile jsWhitespaceChar).reverse)
    (p := jsWhitespaceChar)).subset h1
  exact (List.dropWhile_sublist (l := l) (p := jsWhitespaceChar)).subset
    (List.mem_reverse.mp h2)

/-- C2 counterexample: the claim asserts that `(rawStatus=8, *)` yields
`Canceled` for every value of `hasUsableCode`, but with a usable code the
classifier returns `Code Received` for status `"8"` (the code-present branch
of src/see-activations.tsx line 658 precedes the status table). -/
theorem getStatusText_c2_cex :
    getStatusText "8" true = "Code Received" ∧
    getStatusText "8" true ≠ "Canceled" := by
  constructor
  · rfl
  · decide

/-- C2 amended: the classifier is pure in `(rawStatus, hasUsableCode)`;
with a usable code every raw status (including `"8"`) yields
`Code Received`; without one, `"1"` and `"4"` yield `Waiting for SMS`,
`"3"` yields `Retrying`, `"6"` yields `Completed`, `"8"` yields `Canceled`,
and any other value yields the `Status: `-prefixed raw value.  (The claim's
final clause is restricted to `hasUsableCode = false` for status `"8"`.) -/
theorem getStatusText_c2_amended (s : String) (b : Bool) :
    (getStatusText s true = "Code Received")
    ∧ (getStatusText "1" false = "Waiting for SMS")
    ∧ (getStatusText "3" false = "Retrying")
    ∧ (getStatusText "4" false = "Waiting for SMS")
    ∧ (getStatusText "6" false = "Completed")
    ∧ (getStatusText "8" false = "Canceled")
    ∧ (s ≠ "1" → s ≠ "3" → s ≠ "4" → s ≠ "6" → s ≠ "8" →
        getStatusText s false = "Status: " ++ s)
    ∧ (getStatusText "4" true = "Code Received")
    ∧ (b = true → getStatusText "8" b = "Code Received")
    ∧ (b = false → getStatusText "8" b = "Canceled") := by
  refine ⟨rfl, rfl, rfl, rfl, rfl, rfl, ?_, rfl, ?_, ?_⟩
  · intro h1 h3 h4 h6 h8
    simp [getStatusText, h1, h3, h4, h6, h8]
  · intro hb; subst hb; rfl
  · intro hb; subst hb; rfl

/-- C2 witness: concrete instantiation of the hypotheses of
`getStatusText_c2_amended`. -/
theorem getStatusText_c2_witness :
    getStatusText "77" false = "Status: 77" ∧
    getStatusText "8" false = "Canceled" := by
  have h := getStatusText_c2_amended "77" false
  exact ⟨h.2.2.2.2.2.2.1 (by decide) (by decide) (by decide) (by decide)
    (by decide), h.2.2.2.2.2.2.2.2.2 rfl⟩

lemma getRemainingTimeFromLocal_expired_eq {t : Int} (now : Int) (ht : t ≠ 0)
    (h : localRemainingMs t now ≤ 0) :
    getRemainingTimeFromLocal (some t) now = ⟨0, 0, true⟩ := by
  simp only [getRemainingTimeFromLocal]
  rw [if_neg ht, if_pos h]

lemma getRemainingTimeFromLocal_display {t : Int} (now : Int) (ht : t ≠ 0)
    (h1 : 0 < localRemainingMs t now) (h2 : localRemainingMs t now ≤ 1200000) :
    getRemainingTimeFromLocal (some t) now =
      ⟨localRemainingMs t now / 1000 / 60, localRemainingMs t now / 1000 % 60,
       false⟩ := by
  have hts : localRemainingMs t now / 1000 ≤ 1200 := by
    have := Int.ediv_le_ediv (by norm_num : (0 : Int) < 1000) h2
    simpa using this
  have hm : localRemainingMs t now / 1000 / 60 ≤ 20 := by
    have := Int.ediv_le_ediv (by norm_num : (0 : Int) < 60) hts
    simpa using this
  simp only [getRemainingTimeFromLocal]
  rw [if_neg ht, if_neg (by omega), if_neg (by omega)]

lemma getRemainingTimeFromLocal_expired_iff (t now : Int) (ht : t ≠ 0) :
    (getRemainingTimeFromLocal (some t) now).expired = true ↔
      localRemainingMs t now ≤ 0 := by
  by_cases h : localRemainingMs t now ≤ 0
  · rw [getRemainingTimeFromLocal_expired_eq now ht h]
    simpa using h
  · simp only [getRemainingTimeFromLocal]
    rw [if_neg ht, if_neg h]
    constructor
    · intro hexp
      by_cases hcap : localRemainingMs t now / 1000 / 60 > 20 <;>
        simp [hcap] at hexp
    · intro hle; exact absurd hle h

/-- C5 counterexample: with a trusted local instant the code marks the
record expired as soon as `remaining ≤ 0`; at `remaining = −3000 ms` (inside
the claimed `(−5000, 0]` grace window where the claim requires
`expired = false`) the result is already `expired = true` — the −5000 ms
buffer exists only in the server-timestamp path of
src/see-activations.tsx, not in src/utils.ts. -/
theorem getRemainingTimeFromLocal_c5_cex :
    localRemainingMs 1000 1204000 = -3000 ∧
    getRemainingTimeFromLocal (some 1000) 1204000 =
      ⟨0, 0, true⟩ := by
  constructor
  · decide
  · rfl

/-- C5 amended: for a trusted nonzero local instant `t`, the local-path
computation expires exactly when the underlying remaining time
`localRemainingMs` reaches 0 (there is no −5000 ms grace buffer and no
`0:00`-but-not-expired window in this path); once expired it stays expired;
the underlying remaining time strictly decreases as the clock advances; and
within the valid window (`t ≤ now`) the displayed remaining seconds are
non-increasing. -/
theorem getRemainingTimeFromLocal_c5_amended (t now1 now2 : Int) (ht : t ≠ 0)
    (h12 : now1 ≤ now2) :
    ((getRemainingTimeFromLocal (some t) now1).expired = true ↔
      localRemainingMs t now1 ≤ 0)
    ∧ ((getRemainingTimeFromLocal (some t) now1).expired = true →
        (getRemainingTimeFromLocal (some t) now2).expired = true)
    ∧ (now1 < now2 → localRemainingMs t now2 < localRemainingMs t now1)
    ∧ (t ≤ now1 →
        (getRemainingTimeFromLocal (some t) now2).minutes * 60 +
          (getRemainingTimeFromLocal (some t) now2).seconds ≤
        (getRemainingTimeFromLocal (some t) now1).minutes * 60 +
          (getRemainingTimeFromLocal (some t) now1).seconds) := by
  refine ⟨getRemainingTimeFromLocal_expired_iff t now1 ht, ?_, ?_, ?_⟩
  · intro h1
    rw [getRemainingTimeFromLocal_expired_iff t now1 ht] at h1
    rw [getRemainingTimeFromLocal_expired_iff t now2 ht]
    unfold localRemainingMs at h1 ⊢
    omega
  · intro hlt
    unfold localRemainingMs
    omega
  · intro htn
    have hb1 : localRemainingMs t now1 ≤ 1200000 := by
      unfold localRemainingMs; omega
    by_cases he2 : localRemainingMs t now2 ≤ 0
    · rw [getRemainingTimeFromLocal_expired_eq now2 ht he2]
      by_cases he1 : localRemainingMs t now1 ≤ 0
      · rw [getRemainingTimeFromLocal_expired_eq now1 ht he1]
      · rw [getRemainingTimeFromLocal_display now1 ht (by omega) hb1]
        have hd1 : 0 ≤ localRemainingMs t now1 / 1000 :=
          Int.ediv_nonneg (by omega) (by norm_num)
        have hd2 : 0 ≤ localRemainingMs t now1 / 1000 / 60 :=
          Int.ediv_nonneg hd1 (by norm_num)
        have hd3 : 0 ≤ localRemainingMs t now1 / 1000 % 60 :=
          Int.emod_nonneg _ (by norm_num)
        simp only
        omega
    · have hb2 : localRemainingMs t now2 ≤ localRemainingMs t now1 := by
        unfold localRemainingMs; omega
      rw [getRemainingTimeFromLocal_display now1 ht (by omega) hb1,
        getRemainingTimeFromLocal_display now2 ht (by omega) (by omega)]
      have hdle : localRemainingMs t now2 / 1000 ≤
          localRemainingMs t now1 / 1000 :=
        Int.ediv_le_ediv (by norm_num) hb2
      have hid1 := Int.ediv_add_emod (localRemainingMs t now1 / 1000) 60
      have hid2 := Int.ediv_add_emod (localRemainingMs t now2 / 1000) 60
      simp only
      omega

/-- C5 witness: concrete instantiation of `getRemainingTimeFromLocal_c5_amended`
(displayed remaining seconds do not increase over half a second of wall
clock). -/
theorem getRemainingTimeFromLocal_c5_witness :
    (getRemainingTimeFromLocal (some 1000) 601500).minutes * 60 +
      (getRemainingTimeFromLocal (some 1000) 601500).seconds ≤
    (getRemainingTimeFromLocal (some 1000) 601000).minutes * 60 +
      (getRemainingTimeFromLocal (some 1000) 601000).seconds :=
  (getRemainingTimeFromLocal_c5_amended 1000 601000 601500 (by decide)
    (by decide)).2.2.2 (by decide)

/-- C8 counterexample: the stripped form removes only bracket characters, so
the usable code `"12-34"` strips to `"12-34"`, which is not composed of
digits and letters — the claim that the stripped form always consists of
digits and letters fails. -/
theorem hasCode_c8_cex :
    hasCode (some "12-34") = true ∧
    cleanCode "12-34" = "12-34" ∧
    ((cleanCode "12-34").toList.all Char.isAlphanum) = false := by
  refine ⟨rfl, rfl, ?_⟩
  decide

/-- C8 amended: a code is usable iff it is non-null, non-empty after
trimming, not the literal strings `"null"`/`"undefined"`, and not matched by
the bracket-decoration regex (`"[1234]"` is unusable, `"[1234] extra"` and
`"1234"` are usable); the stripped form never contains a bracket character
(but characters other than digits and letters are preserved, so it need not
be alphanumeric). -/
theorem hasCode_c8_amended (c : String) (ch : Char) :
    hasCode none = false
    ∧ hasCode (some "") = false
    ∧ hasCode (some "null") = false
    ∧ hasCode (some "undefined") = false
    ∧ hasCode (some "   ") = false
    ∧ hasCode (some "[1234]") = false
    ∧ hasCode (some "[1234] extra") = true
    ∧ hasCode (some "1234") = true
    ∧ cleanCode "[1234]" = "1234"
    ∧ (ch ∈ (cleanCode c).toList → ch ≠ '[' ∧ ch ≠ ']') := by
  refine ⟨rfl, rfl, rfl, rfl, by decide, by decide, by decide, rfl, rfl, ?_⟩
  intro hmem
  have hmem2 : ch ∈ (c.toList.filter (fun x => !(x == '[' || x == ']'))) := by
    have : (cleanCode c).toList =
        trimChars (c.toList.filter (fun x => !(x == '[' || x == ']'))) := rfl
    rw [this] at hmem
    exact mem_of_mem_trimChars hmem
  have hcond := List.of_mem_filter hmem2
  simp at hcond
  exact hcond

/-- C8 witness: concrete instantiation of the bracket-freeness hypothesis of
`hasCode_c8_amended`. -/
theorem hasCode_c8_witness : ('1' : Char) ≠ '[' ∧ ('1' : Char) ≠ ']' :=
  (hasCode_c8_amended "[1]" '1').2.2.2.2.2.2.2.2.2 (by decide)

lemma savedIds_wf {l : List Int} (cid : Int) (h : l.Nodup) :
    ((cid :: l.filter (fun id => id != cid)).take 10).Nodup ∧
    ((cid :: l.filter (fun id => id != cid)).take 10).length ≤ 10 ∧
    ((cid :: l.filter (fun id => id != cid)).take 10).head? = some cid := by
  refine ⟨?_, ?_, rfl⟩
  · refine List.Nodup.sublist (List.take_sublist _ _) ?_
    refine List.nodup_cons.mpr ⟨?_, h.filter _⟩
    intro hmem
    have := List.mem_filter.mp hmem
    simp at this
  · have := List.length_take 10 (cid :: l.filter (fun id => id != cid))
    omega

lemma saveRecentlyUsedCountry_findEntry (sc : String) (cid : Int)
    (entries : List RecentlyUsedEntry) :
    findEntry (saveRecentlyUsedCountry sc cid entries) sc =
      some ⟨sc, (cid :: ((findEntry entries sc).elim []
        (fun e => e.countryIds)).filter (fun id => id != cid)).take 10⟩ := by
  induction entries with
  | nil => simp [findEntry, saveRecentlyUsedCountry, List.find?]
  | cons e rest ih =>
    by_cases h : e.serviceCode = sc
    · simp only [saveRecentlyUsedCountry, if_pos h, findEntry, List.find?]
      rw [h]
      simp [findEntry, List.find?]
    · simp only [saveRecentlyUsedCountry, if_neg h, findEntry, List.find?]
      have hbeq : (e.serviceCode == sc) = false := by
        simpa using h
      rw [hbeq]
      simpa [findEntry] using ih

lemma saveRecentlyUsedCountry_wf (sc : String) (cid : Int)
    (entries : List RecentlyUsedEntry) (h : WellFormedEntries entries) :
    WellFormedEntries (saveRecentlyUsedCountry sc cid entries) := by
  induction entries with
  | nil =>
    intro e he
    simp [saveRecentlyUsedCountry] at he
    subst he
    exact ⟨by simp, by simp⟩
  | cons hd tl ih =>
    by_cases hsc : hd.serviceCode = sc
    · simp only [saveRecentlyUsedCountry, if_pos hsc]
      intro e he
      rcases List.mem_cons.mp he with heq | htl
      · subst heq
        have hn := (h hd (List.mem_cons_self hd tl)).1
        exact ⟨(savedIds_wf cid hn).1, (savedIds_wf cid hn).2.1⟩
      · exact h e (List.mem_cons_of_mem hd htl)
    · simp only [saveRecentlyUsedCountry, if_neg hsc]
      intro e he
      rcases List.mem_cons.mp he with heq | htl
      · subst heq
        exact h e (List.mem_cons_self e tl)
      · exact ih (fun x hx => h x (List.mem_cons_of_mem hd hx)) e htl

lemma saveRecentlyUsedCountry_wf_foldl (ops : List (String × Int))
    (entries : List RecentlyUsedEntry) (h : WellFormedEntries entries) :
    WellFormedEntries (ops.foldl
      (fun es op => saveRecentlyUsedCountry op.1 op.2 es) entries) := by
  induction ops generalizing entries with
  | nil => exact h
  | cons op rest ih =>
    exact ih (saveRecentlyUsedCountry op.1 op.2 entries)
      (saveRecentlyUsedCountry_wf op.1 op.2 entries h)

/-- C10 counterexample: starting from an arbitrary (ill-formed) stored state,
a pre-existing duplicate in a service's id list survives a save, so the
claimed invariant "no id occurs twice ... starting from any stored state"
fails on the code. -/
theorem saveRecentlyUsedCountry_c10_cex :
    saveRecentlyUsedCountry "a" 5 [⟨"a", [2, 2]⟩] = [⟨"a", [5, 2, 2]⟩] ∧
    ¬ ([5, 2, 2] : List Int).Nodup := by
  constructor
  · rfl
  · decide

/-- C10 amended: starting from a well-formed stored state (every entry
duplicate-free with at most ten ids — in particular the empty state), any
sequence of saves preserves well-formedness; after a save the entry for the
saved service exists, its first id is the one just saved, and it is
duplicate-free with length at most ten; saving an id already present yields
a permutation of the old list (moved to front, no growth). -/
theorem saveRecentlyUsedCountry_c10_amended (ops : List (String × Int))
    (entries : List RecentlyUsedEntry) (h : WellFormedEntries entries)
    (sc : String) (cid : Int) :
    WellFormedEntries (ops.foldl
      (fun es op => saveRecentlyUsedCountry op.1 op.2 es) entries)
    ∧ (∀ e, findEntry (saveRecentlyUsedCountry sc cid entries) sc = some e →
        e.countryIds.head? = some cid ∧ e.countryIds.Nodup ∧
        e.countryIds.length ≤ 10)
    ∧ (findEntry (saveRecentlyUsedCountry sc cid entries) sc).isSome = true
    ∧ (∀ e eNew, findEntry entries sc = some e → cid ∈ e.countryIds →
        findEntry (saveRecentlyUsedCountry sc cid entries) sc = some eNew →
        eNew.countryIds.Perm e.countryIds ∧
        eNew.countryIds.length = e.countryIds.length) := by
  have hbase : ((findEntry entries sc).elim []
      (fun e => e.countryIds)).Nodup := by
    cases hfind : findEntry entries sc with
    | none => simp
    | some e0 =>
      have : e0 ∈ entries := List.mem_of_find?_eq_some hfind
      simpa using (h e0 this).1
  refine ⟨saveRecentlyUsedCountry_wf_foldl ops entries h, ?_, ?_, ?_⟩
  · intro e he
    rw [saveRecentlyUsedCountry_findEntry sc cid entries] at he
    cases he
    exact ⟨(savedIds_wf cid hbase).2.2, (savedIds_wf cid hbase).1,
      (savedIds_wf cid hbase).2.1⟩
  · rw [saveRecentlyUsedCountry_findEntry sc cid entries]
    rfl
  · intro e eNew hfind hmem hnew
    rw [saveRecentlyUsedCountry_findEntry sc cid entries, hfind] at hnew
    cases hnew
    have hnodup : e.countryIds.Nodup := by
      have : e ∈ entries := List.mem_of_find?_eq_some hfind
      exact (h e this).1
    have hlen10 : e.countryIds.length ≤ 10 := by
      have : e ∈ entries := List.mem_of_find?_eq_some hfind
      exact (h e this).2
    have hfilter : e.countryIds.filter (fun id => id != cid) =
        e.countryIds.erase cid := by
      rw [List.Nodup.erase_eq_filter hnodup]
    have hlenerase : (e.countryIds.erase cid).length =
        e.countryIds.length - 1 := List.length_erase_of_mem hmem
    have hpos : 0 < e.countryIds.length :=
      List.length_pos.mpr (List.ne_nil_of_mem hmem)
    have hlencons : (cid :: e.countryIds.erase cid).length =
        e.countryIds.length := by
      simp only [List.length_cons, hlenerase]
      omega
    have hperm : (cid :: e.countryIds.erase cid).Perm e.countryIds :=
      (List.perm_cons_erase hmem).symm
    simp only [Option.elim, hfilter]
    rw [List.take_of_length_le (by omega)]
    exact ⟨hperm, hlencons⟩

/-- C10 witness: concrete instantiation of
`saveRecentlyUsedCountry_c10_amended` — saving an id already present moves it
to the front as a permutation of the old list without growing it. -/
theorem saveRecentlyUsedCountry_c10_witness :
    (([2, 1] : List Int).Perm [1, 2]) ∧
    ([2, 1] : List Int).length = ([1, 2] : List Int).length :=
  (saveRecentlyUsedCountry_c10_amended [] [⟨"a", [1, 2]⟩]
    (by intro e he; simp at he; subst he; exact ⟨by decide, by decide⟩) "a"
    2).2.2.2 ⟨"a", [1, 2]⟩ ⟨"a", [2, 1]⟩ (by decide) (by decide) (by decide)

lemma sweepActivations_spec (now : Int) (recs : List EnhancedActivation)
    (store : List String) :
    (sweepActivations now recs store).1 =
      recs.filter (fun a => !sweepDropped now a) ∧
    (sweepActivations now recs store).2 =
      ((recs.filter (sweepDropped now)).map
        (fun a => "activation_" ++ a.activationId)).foldl removeItem store := by
  induction recs generalizing store with
  | nil => exact ⟨rfl, rfl⟩
  | cons a rest ih =>
    cases hlc : a.localCreatedAt with
    | none =>
      simp only [sweepActivations, hlc]
      refine ⟨?_, ?_⟩
      · simp [List.filter_cons, sweepDropped, hlc, (ih store).1]
      · simp [List.filter_cons, sweepDropped, hlc, (ih store).2]
    | some t =>
      by_cases ht : t = 0
      · subst ht
        have hda : sweepDropped now a = false := by simp [sweepDropped, hlc]
        simp only [sweepActivations, hlc, if_pos rfl]
        refine ⟨?_, ?_⟩
        · simp [List.filter_cons, hda, (ih store).1]
        · simp [List.filter_cons, hda, (ih store).2]
      · by_cases hexp : now - t > 20 * 60 * 1000
        · have hbeq : (t == 0) = false := by simpa using ht
          have hda : sweepDropped now a = true := by
            simp only [sweepDropped, hlc, hbeq, Bool.not_false, Bool.true_and,
              decide_eq_true_eq]
            omega
          simp only [sweepActivations, hlc, if_neg ht, if_pos hexp]
          refine ⟨?_, ?_⟩
          · rw [(ih (removeItem store ("activation_" ++ a.activationId))).1]
            simp [List.filter_cons, hda]
          · rw [(ih (removeItem store ("activation_" ++ a.activationId))).2]
            simp [List.filter_cons, hda]
        · have hbeq : (t == 0) = false := by simpa using ht
          have hda : sweepDropped now a = false := by
            simp only [sweepDropped, hlc, hbeq, Bool.not_false, Bool.true_and,
              decide_eq_false_iff_not]
            omega
          simp only [sweepActivations, hlc, if_neg ht, if_neg hexp]
          refine ⟨?_, ?_⟩
          · simp [List.filter_cons, hda, (ih store).1]
          · simp [List.filter_cons, hda, (ih store).2]

/-- C7 counterexample: a tracked record whose authoritative clock is the
server timestamp (no trusted local instant) is expired according to the
reconciler (empty timestamp ⇒ `expired = true`), yet the sweep keeps it in
the result set and leaves its store entry untouched — the sweep of
`fetchActivations` only ever examines records with a truthy
`localCreatedAt`. -/
theorem sweepActivations_c7_cex :
    getRemainingTime noDateParse noDateParse noDateParse 0 "" =
      ⟨0, 0, true⟩ ∧
    sweepActivations 0 [⟨"42", none, ""⟩] ["activation_42"] =
      ([⟨"42", none, ""⟩], ["activation_42"]) := by
  exact ⟨rfl, rfl⟩

/-- C7 amended: on each sweep tick, exactly the records carrying a nonzero
trusted local instant with elapsed time strictly over 20 minutes are removed,
both from the result list and (via their `activation_`-prefixed key) from the
persisted store; every surviving locally-clocked record is within the
20-minute window; and every record whose only clock is the server timestamp
is retained in the result set regardless of its expiration state. -/
theorem sweepActivations_c7_amended (now : Int)
    (recs : List EnhancedActivation) (store : List String) :
    (sweepActivations now recs store).1 =
      recs.filter (fun a => !sweepDropped now a)
    ∧ (sweepActivations now recs store).2 =
        ((recs.filter (sweepDropped now)).map
          (fun a => "activation_" ++ a.activationId)).foldl removeItem store
    ∧ (∀ a ∈ (sweepActivations now recs store).1, ∀ t,
        a.localCreatedAt = some t → t ≠ 0 → now - t ≤ 20 * 60 * 1000)
    ∧ (∀ a ∈ recs, a.localCreatedAt = none →
        a ∈ (sweepActivations now recs store).1) := by
  refine ⟨(sweepActivations_spec now recs store).1,
    (sweepActivations_spec now recs store).2, ?_, ?_⟩
  · intro a ha t hlc htz
    rw [(sweepActivations_spec now recs store).1] at ha
    have hkeep := (List.mem_filter.mp ha).2
    simp only [sweepDropped, hlc] at hkeep
    simp [htz] at hkeep
    omega
  · intro a ha hlc
    rw [(sweepActivations_spec now recs store).1]
    exact List.mem_filter.mpr ⟨ha, by simp [sweepDropped, hlc]⟩

/-- C7 witness: concrete instantiation of `sweepActivations_c7_amended` — a
server-clocked record survives the very tick that drops an over-age
locally-clocked record. -/
theorem sweepActivations_c7_witness :
    (⟨"2", none, ""⟩ : EnhancedActivation) ∈
      (sweepActivations 2000000 [⟨"1", some 1, "t"⟩, ⟨"2", none, ""⟩]
        ["activation_1", "activation_2"]).1 :=
  (sweepActivations_c7_amended 2000000 [⟨"1", some 1, "t"⟩, ⟨"2", none, ""⟩]
    ["activation_1", "activation_2"]).2.2.2 ⟨"2", none, ""⟩ (by decide) rfl

/-- C6: for every conforming JSON decoder (one that can only succeed on
texts starting like a JSON document — in particular never on a text starting
with an upper-case letter), `apiCall` fails on `NO_KEY`/`BAD_KEY`-prefixed
payloads with the authentication message, on `ERROR_SQL`-prefixed payloads
with the transient-server message, and on any other `BAD_`/`NO_`/`ERROR_`
prefixed payload with the literal upstream text; the quantification over all
conforming decoders shows each failure is independent of the structured
decoding attempt (the first two checks even hold for arbitrary decoders,
being textually before the `JSON.parse` call). -/
theorem apiCall_c6_sentinels (parseJson : String → Option Json)
    (hp : JsonParseConforms parseJson) (text : String) :
    (jsStartsWith text "NO_KEY" = true ∨ jsStartsWith text "BAD_KEY" = true →
      apiCall parseJson text = .error invalidKeyMsg)
    ∧ (jsStartsWith text "ERROR_SQL" = true →
        apiCall parseJson text = .error serverErrorMsg)
    ∧ ((jsStartsWith text "BAD_" = true ∨ jsStartsWith text "NO_" = true ∨
          jsStartsWith text "ERROR_" = true) →
        jsStartsWith text "NO_KEY" = false →
        jsStartsWith text "BAD_KEY" = false →
        jsStartsWith text "ERROR_SQL" = false →
        apiCall parseJson text = .error text) := by
  refine ⟨?_, ?_, ?_⟩
  · intro h
    unfold apiCall
    rcases h with h | h <;> simp [h]
  · intro h
    obtain ⟨rest, hrest⟩ :=
      isPrefixOf_head_eq 'E' "RROR_SQL".toList text.toList (by exact h)
    have hdata : text.data = 'E' :: rest := hrest
    have hnk : jsStartsWith text "NO_KEY" = false := by
      simp [jsStartsWith, hdata, List.isPrefixOf]
    have hbk : jsStartsWith text "BAD_KEY" = false := by
      simp [jsStartsWith, hdata, List.isPrefixOf]
    unfold apiCall
    simp [hnk, hbk, h]
  · intro hpre hnk hbk hes
    have hnone : parseJson text = none := by
      rcases hpre with h | h | h
      · obtain ⟨rest, hrest⟩ :=
          isPrefixOf_head_eq 'B' "AD_".toList text.toList (by exact h)
        exact parseJson_none_of_lead parseJson hp text 'B' rest hrest (by decide)
      · obtain ⟨rest, hrest⟩ :=
          isPrefixOf_head_eq 'N' "O_".toList text.toList (by exact h)
        exact parseJson_none_of_lead parseJson hp text 'N' rest hrest (by decide)
      · obtain ⟨rest, hrest⟩ :=
          isPrefixOf_head_eq 'E' "RROR_".toList text.toList (by exact h)
        exact parseJson_none_of_lead parseJson hp text 'E' rest hrest (by decide)
    unfold apiCall
    rcases hpre with h | h | h <;> simp [hnk, hbk, hes, hnone, h]

/-- C6 witness: concrete instantiation of `apiCall_c6_sentinels` on the
always-failing decoder (the real `JSON.parse` also throws on each of these
texts). -/
theorem apiCall_c6_witness :
    apiCall noJsonParse "NO_FOO" = .error "NO_FOO" ∧
    apiCall noJsonParse "NO_KEY extra" = .error invalidKeyMsg ∧
    apiCall noJsonParse "ERROR_SQL x" = .error serverErrorMsg := by
  have hp : JsonParseConforms noJsonParse := by
    intro s j h
    simp [noJsonParse] at h
  exact ⟨(apiCall_c6_sentinels noJsonParse hp "NO_FOO").2.2
      (Or.inr (Or.inl (by decide))) (by decide) (by decide) (by decide),
    (apiCall_c6_sentinels noJsonParse hp "NO_KEY extra").1
      (Or.inl (by decide)),
    (apiCall_c6_sentinels noJsonParse hp "ERROR_SQL x").2.1 (by decide)⟩

/-- C1 counterexample: for the bare-string payload `"NO_ACTIVATIONS"` the
caller of `getActiveActivations` receives a raised error, not an empty
collection: `JSON.parse("NO_ACTIVATIONS")` throws (no JSON document begins
with `N`, modelled by `noJsonParse`), after which `apiCall`'s generic `NO_`
sentinel check throws `Error("NO_ACTIVATIONS")` before `getActiveActivations`
can inspect the string — its `result === "NO_ACTIVATIONS"` check at
src/api.ts line 242 is unreachable for this payload. -/
theorem getActiveActivations_c1_cex :
    getActiveActivations noJsonParse identityRow "NO_ACTIVATIONS" =
      .error "NO_ACTIVATIONS" ∧
    getActiveActivations noJsonParse identityRow "NO_ACTIVATIONS" ≠
      .ok [] := by
  refine ⟨rfl, ?_⟩
  intro h
  exact Except.noConfusion h

/-- C1 amended: for every conforming JSON decoder, the bare string
`"NO_ACTIVATIONS"` surfaces from `getActiveActivations` as the raised error
`Error("NO_ACTIVATIONS")` (which the UI layer `fetchActivations` then
suppresses), while a JSON error-envelope payload whose raw text mentions
`NO_ACTIVATIONS` yields the empty collection: `apiCall` swallows the
envelope's `status:"error"` throw in its parse `catch` and returns the raw
text, whose `includes("NO_ACTIVATIONS")` test then produces `[]`. -/
theorem getActiveActivations_c1_amended (parseJson : String → Option Json)
    (mapRow : Json → Json) (hp : JsonParseConforms parseJson) (text : String)
    (fields : List (String × Json))
    (hparse : parseJson text = some (.obj fields))
    (herr : fieldIsStr fields "status" "error" = true)
    (hinc : jsIncludes text "NO_ACTIVATIONS" = true)
    (hb : jsStartsWith text "BAD_" = false)
    (hn : jsStartsWith text "NO_" = false)
    (he : jsStartsWith text "ERROR_" = false) :
    getActiveActivations parseJson mapRow "NO_ACTIVATIONS" =
      .error "NO_ACTIVATIONS"
    ∧ getActiveActivations parseJson mapRow text = .ok [] := by
  constructor
  · have hnone : parseJson "NO_ACTIVATIONS" = none :=
      parseJson_none_of_lead parseJson hp "NO_ACTIVATIONS" 'N'
        "O_ACTIVATIONS".toList (by decide) (by decide)
    unfold getActiveActivations apiCall
    rw [hnone]
    rfl
  · have hnk : jsStartsWith text "NO_KEY" = false := by
      cases hcase : jsStartsWith text "NO_KEY" with
      | false => rfl
      | true =>
        rw [jsStartsWith_mono (by decide) hcase] at hn
        cases hn
    have hbk : jsStartsWith text "BAD_KEY" = false := by
      cases hcase : jsStartsWith text "BAD_KEY" with
      | false => rfl
      | true =>
        rw [jsStartsWith_mono (by decide) hcase] at hb
        cases hb
    have hes : jsStartsWith text "ERROR_SQL" = false := by
      cases hcase : jsStartsWith text "ERROR_SQL" with
      | false => rfl
      | true =>
        rw [jsStartsWith_mono (by decide) hcase] at he
        cases he
    have herrj : statusIsError (.obj fields) = true := herr
    unfold getActiveActivations apiCall
    rw [hparse]
    simp [hnk, hbk, hes, hb, hn, he, herrj, getActiveActivationsStr, hinc]

/-- C1 witness: concrete instantiation of `getActiveActivations_c1_amended`
on the sample error envelope. -/
theorem getActiveActivations_c1_witness :
    getActiveActivations sampleErrorEnvelopeParse identityRow
      "NO_ACTIVATIONS" = .error "NO_ACTIVATIONS" ∧
    getActiveActivations sampleErrorEnvelopeParse identityRow
      sampleErrorEnvelopeText = .ok [] := by
  have hp : JsonParseConforms sampleErrorEnvelopeParse := by
    intro s j h
    by_cases hs : (s == sampleErrorEnvelopeText) = true
    · have : s = sampleErrorEnvelopeText := by simpa using hs
      subst this
      decide
    · simp [sampleErrorEnvelopeParse, hs] at h
  exact getActiveActivations_c1_amended sampleErrorEnvelopeParse identityRow
    hp sampleErrorEnvelopeText sampleErrorEnvelopeFields rfl (by decide)
    (by decide) (by decide) (by decide) (by decide)

lemma assign_singletons (pairs : List (String × Json))
    (acc : List (String × Json))
    (hnd : (pairs.map Prod.fst).Nodup)
    (hdisj : ∀ k ∈ pairs.map Prod.fst,
      acc.any (fun p => p.1 == k) = false) :
    (pairs.map (fun kv => Json.obj [kv])).foldl objectAssign acc =
      acc ++ pairs := by
  induction pairs generalizing acc with
  | nil => simp
  | cons kv rest ih =>
    simp only [List.map_cons, List.foldl_cons]
    have hstep : objectAssign acc (Json.obj [kv]) = acc ++ [kv] := by
      have hany := hdisj kv.1 (by simp)
      simp [objectAssign, assignPair, hany]
    rw [hstep]
    have hndrest : (rest.map Prod.fst).Nodup := by
      simpa using (List.nodup_cons.mp (by simpa using hnd)).2
    have hnotmem : kv.1 ∉ rest.map Prod.fst :=
      (List.nodup_cons.mp (by simpa using hnd)).1
    rw [ih (acc ++ [kv]) hndrest ?_]
    · simp
    · intro k hk
      rw [List.any_append]
      have h1 := hdisj k (by simp [hk])
      have h2 : kv.1 ≠ k := by
        intro heq
        exact hnotmem (heq ▸ hk)
      simp [h1, h2]

/-- C9: for every array-shaped price payload whose elements each map one
outer key to an inner value, with pairwise-distinct outer keys, `getPrices`
merges all outer objects into the single combined mapping
(`Object.assign({}, ...result)`); with `pairs = []` this covers the empty
array yielding the empty mapping. -/
theorem getPrices_c9_merge (parseJson : String → Option Json) (text : String)
    (pairs : List (String × Json))
    (hparse : parseJson text = some (.arr (pairs.map (fun kv => Json.obj [kv]))))
    (hnd : (pairs.map Prod.fst).Nodup)
    (h1 : jsStartsWith text "NO_KEY" = false)
    (h2 : jsStartsWith text "BAD_KEY" = false)
    (h3 : jsStartsWith text "ERROR_SQL" = false) :
    getPrices parseJson text = .ok (.obj pairs) := by
  unfold getPrices apiCall
  rw [hparse]
  simp only [h1, h2, h3, Bool.or_self, Bool.false_or, if_false]
  cases pairs with
  | nil => rfl
  | cons kv rest =>
    simp only [statusIsError, List.map_cons]
    rw [if_neg (by simp)]
    have := assign_singletons (kv :: rest) [] hnd (by simp)
    simp only [List.map_cons] at this
    simp [this]

/-- C9 witness: concrete instantiation of `getPrices_c9_merge` on the
two-country example payload and on the empty array. -/
theorem getPrices_c9_witness :
    getPrices samplePricesParse "prices" = .ok (.obj samplePricesPairs) ∧
    getPrices samplePricesParse "empty-prices" = .ok (.obj []) := by
  constructor
  · exact getPrices_c9_merge samplePricesParse "prices" samplePricesPairs rfl
      (by decide) (by decide) (by decide) (by decide)
  · exact getPrices_c9_merge samplePricesParse "empty-prices" [] rfl
      (by decide) (by decide) (by decide) (by decide)

/-- C3: for a server timestamp string of shape `YYYY-MM-DD HH:MM:SS` (no
`T`, matching the format regex) whose local and UTC interpretations both
parse, the reconciler keeps the local interpretation exactly when the local
elapsed time is plausible (not below −300000 ms and not above 25 minutes);
otherwise it re-parses as UTC and adopts the UTC interpretation exactly when
the UTC elapsed time lies in [−60000 ms, 25 min], keeping the local one
otherwise.  In particular a local elapsed over 25 minutes with a UTC elapsed
of 3 minutes selects the UTC interpretation. -/
theorem resolveActivationDate_c3 (parseGen parseLoc parseUtc : String → Option Int)
    (now tLoc tUtc : Int) (s : String)
    (hT : jsIncludes s "T" = false)
    (hF : matchesTsFormat s = true)
    (hL : parseLoc s = some tLoc)
    (hU : parseUtc s = some tUtc) :
    (¬(now - tLoc < -300000 ∨ now - tLoc > 25 * 60 * 1000) →
      resolveActivationDate parseGen parseLoc parseUtc now s = some tLoc)
    ∧ ((now - tLoc < -300000 ∨ now - tLoc > 25 * 60 * 1000) →
        ((-60000 ≤ now - tUtc ∧ now - tUtc ≤ 25 * 60 * 1000) →
          resolveActivationDate parseGen parseLoc parseUtc now s = some tUtc)
        ∧ (¬(-60000 ≤ now - tUtc ∧ now - tUtc ≤ 25 * 60 * 1000) →
          resolveActivationDate parseGen parseLoc parseUtc now s = some tLoc))
    ∧ (25 * 60 * 1000 < now - tLoc → now - tUtc = 3 * 60 * 1000 →
        resolveActivationDate parseGen parseLoc parseUtc now s = some tUtc) := by
  unfold resolveActivationDate
  rw [hT, hF, hL]
  simp only [Bool.false_eq_true, if_false, if_true]
  refine ⟨?_, ?_, ?_⟩
  · intro h
    rw [if_neg h]
  · intro h
    rw [if_pos h, hU]
    constructor
    · intro hu
      show (if -60000 ≤ now - tUtc ∧ now - tUtc ≤ 25 * 60 * 1000 then
        some tUtc else some tLoc) = some tUtc
      rw [if_pos hu]
    · intro hu
      show (if -60000 ≤ now - tUtc ∧ now - tUtc ≤ 25 * 60 * 1000 then
        some tUtc else some tLoc) = some tLoc
      rw [if_neg hu]
  · intro hlate hutc
    rw [if_pos (Or.inr (by omega)), hU]
    show (if -60000 ≤ now - tUtc ∧ now - tUtc ≤ 25 * 60 * 1000 then
      some tUtc else some tLoc) = some tUtc
    rw [if_pos (by omega)]

/-- C3 witness: concrete instantiation of `resolveActivationDate_c3` on the
sample timestamp string with a local elapsed of 9 300 000 ms (over 25
minutes) and a UTC elapsed of exactly 3 minutes: the UTC interpretation is
selected. -/
theorem resolveActivationDate_c3_witness :
    resolveActivationDate noDateParse sampleLocalDateParse sampleUtcDateParse
      10000000 "2026-01-08 21:42:03" = some 9820000 :=
  (resolveActivationDate_c3 noDateParse sampleLocalDateParse
    sampleUtcDateParse 10000000 700000 9820000 "2026-01-08 21:42:03"
    (by decide) (by decide) rfl rfl).2.2 (by decide) (by decide)

/-- C4: the expiration-state computation is total by construction (it is a
plain function into `RemainingTime`); the degenerate inputs normalize to the
expired record `⟨0, 0, true⟩` instead of propagating a failure: a timestamp
that is empty after trimming, a timestamp none of the date constructions can
parse, and a resolved instant more than 60 seconds in the future; and every
output is either exactly `⟨0, 0, true⟩` or a non-expired display with
`0 ≤ minutes ≤ 20` and `0 ≤ seconds < 60`. -/
theorem getRemainingTime_c4_total (parseGen parseLoc parseUtc : String → Option Int)
    (now : Int) (s : String) :
    (jsTrim s = "" → getRemainingTime parseGen parseLoc parseUtc now s = ⟨0, 0, true⟩)
    ∧ (resolveActivationDate parseGen parseLoc parseUtc now s = none →
        getRemainingTime parseGen parseLoc parseUtc now s = ⟨0, 0, true⟩)
    ∧ (∀ d, resolveActivationDate parseGen parseLoc parseUtc now s = some d →
        now - d < -60000 →
        getRemainingTime parseGen parseLoc parseUtc now s = ⟨0, 0, true⟩)
    ∧ (getRemainingTime parseGen parseLoc parseUtc now s = ⟨0, 0, true⟩ ∨
        ((getRemainingTime parseGen parseLoc parseUtc now s).expired = false ∧
          0 ≤ (getRemainingTime parseGen parseLoc parseUtc now s).minutes ∧
          (getRemainingTime parseGen parseLoc parseUtc now s).minutes ≤ 20 ∧
          0 ≤ (getRemainingTime parseGen parseLoc parseUtc now s).seconds ∧
          (getRemainingTime parseGen parseLoc parseUtc now s).seconds < 60)) := by
  refine ⟨?_, ?_, ?_, ?_⟩
  · intro h
    unfold getRemainingTime
    rw [if_pos h]
  · intro h
    unfold getRemainingTime
    by_cases ht : jsTrim s = ""
    · rw [if_pos ht]
    · rw [if_neg ht, h]
  · intro d hd hfut
    unfold getRemainingTime
    by_cases ht : jsTrim s = ""
    · rw [if_pos ht]
    · rw [if_neg ht, hd]
      simp only
      rw [if_pos hfut]
  · unfold getRemainingTime
    by_cases ht : jsTrim s = ""
    · rw [if_pos ht]
      exact Or.inl rfl
    · rw [if_neg ht]
      cases hres : resolveActivationDate parseGen parseLoc parseUtc now s with
      | none => exact Or.inl rfl
      | some d =>
        simp only
        by_cases hfut : now - d < -60000
        · rw [if_pos hfut]
          exact Or.inl rfl
        · rw [if_neg hfut]
          by_cases hexp : 20 * 60 * 1000 - (now - d) ≤ -5000
          · rw [if_pos hexp]
            exact Or.inl rfl
          · rw [if_neg hexp]
            by_cases hneg : 20 * 60 * 1000 - (now - d) < 0
            · rw [if_pos hneg]
              exact Or.inr (by constructor <;> simp)
            · rw [if_neg hneg]
              have hrem0 : 0 ≤ 20 * 60 * 1000 - (now - d) := by omega
              have hts0 : 0 ≤ (20 * 60 * 1000 - (now - d)) / 1000 :=
                Int.ediv_nonneg hrem0 (by norm_num)
              have hm0 : 0 ≤ (20 * 60 * 1000 - (now - d)) / 1000 / 60 :=
                Int.ediv_nonneg hts0 (by norm_num)
              have hs0 : 0 ≤ (20 * 60 * 1000 - (now - d)) / 1000 % 60 :=
                Int.emod_nonneg _ (by norm_num)
              have hs60 : (20 * 60 * 1000 - (now - d)) / 1000 % 60 < 60 :=
                Int.emod_lt_of_pos _ (by norm_num)
              have hcond : ¬((if (20 * 60 * 1000 - (now - d)) / 1000 / 60 > 20
                  then (20 : Int)
                  else (20 * 60 * 1000 - (now - d)) / 1000 / 60) < 0 ∨
                  (20 * 60 * 1000 - (now - d)) / 1000 % 60 < 0) := by
                by_cases hcap : (20 * 60 * 1000 - (now - d)) / 1000 / 60 > 20 <;>
                  simp [hcap] <;> omega
              rw [if_neg hcond]
              refine Or.inr ⟨rfl, ?_, ?_, hs0, hs60⟩
              · by_cases hcap : (20 * 60 * 1000 - (now - d)) / 1000 / 60 > 20
                · rw [if_pos hcap]
                  norm_num
                · rw [if_neg hcap]
                  exact hm0
              · by_cases hcap : (20 * 60 * 1000 - (now - d)) / 1000 / 60 > 20
                · rw [if_pos hcap]
                · rw [if_neg hcap]
                  exact le_of_not_lt hcap

/-- C4 witness: concrete instantiation of `getRemainingTime_c4_total` — the
empty string and an unparsable string both normalize to the expired
record. -/
theorem getRemainingTime_c4_witness :
    getRemainingTime noDateParse noDateParse noDateParse 0 "" =
      ⟨0, 0, true⟩ ∧
    getRemainingTime noDateParse noDateParse noDateParse 0 "not a date" =
      ⟨0, 0, true⟩ :=
  ⟨(getRemainingTime_c4_total noDateParse noDateParse noDateParse 0 "").1
      (by decide),
   (getRemainingTime_c4_total noDateParse noDateParse noDateParse 0
      "not a date").2.1 rfl⟩
